import Mathlib

/-!
# Verification of the `dap` patch-application engine

A shallow embedding, in Lean 4, of `src/pkgs/dap/dap.py`: the dialect
parsers, the three-tier block matcher `find_occurrences`, the preflight
validator `run_preflight_checks`, the executor `apply_patch`, and the
post-parse control flow of `main`.

Modelling conventions:

* Python strings are Lean `String`s; the character-level helpers below
  (`pyStrip`, `pySplitlines`, ...) mirror the CPython behaviour of
  `str.strip`, `str.splitlines`, `file.readlines` on the ASCII texts the
  tool processes.  Line breaks are modelled as `"\n"`, `"\r\n"` and `"\r"`
  (the forms `str.splitlines` shares with universal-newline text IO).
* The filesystem is a finite map from path to file content
  (`FS := List (String × String)`).  I/O exceptions other than
  "file does not exist" (permissions, encoding errors) are outside the
  model: a path either maps to readable content or is absent.
* Python generator functions become functions returning lists; a parser
  that can raise an uncaught exception (`parse_diff_fenced` calls
  `None.strip()` when no file path was ever established) returns
  `Option (List Edit)`, with `none` standing for the raised exception.
-/

namespace Dap

/-- The six characters CPython's `str.strip()` removes from ASCII text. -/
def pyIsSpace (c : Char) : Bool :=
  c = ' ' || c = '\t' || c = '\n' || c = '\r' || c = '\x0b' || c = '\x0c'

/-- A character that `rstrip("\n\r")` / `strip("\n\r")` removes. -/
def isNLChar (c : Char) : Bool := c = '\n' || c = '\r'

/-- `leads pat cs` is true when `pat` is a prefix of `cs`
(CPython `str.startswith`, at the character-list level). -/
def leads : List Char → List Char → Bool
  | [], _ => true
  | _ :: _, [] => false
  | a :: as, b :: bs => a = b && leads as bs

/-- `subOf pat cs` is true when `pat` occurs contiguously inside `cs`
(CPython's `in` operator on strings, at the character-list level). -/
def subOf (pat : List Char) : List Char → Bool
  | [] => pat.isEmpty
  | c :: cs => leads pat (c :: cs) || subOf pat cs

/-- `str.strip()`: drop `pyIsSpace` characters from both ends. -/
def pyStrip (s : String) : String :=
  ⟨((s.data.dropWhile pyIsSpace).reverse.dropWhile pyIsSpace).reverse⟩

/-- `line.rstrip("\n\r")`: drop trailing newline characters. -/
def rstripNL (s : String) : String :=
  ⟨(s.data.reverse.dropWhile isNLChar).reverse⟩

/-- `s.strip("\n\r")`: drop newline characters from both ends. -/
def stripNLBoth (s : String) : String :=
  ⟨((s.data.dropWhile isNLChar).reverse.dropWhile isNLChar).reverse⟩

/-- `strStarts s pat`: CPython `s.startswith(pat)`. -/
def strStarts (s pat : String) : Bool := leads pat.data s.data

/-- `strEnds s pat`: CPython `s.endswith(pat)`. -/
def strEnds (s pat : String) : Bool := leads pat.data.reverse s.data.reverse

/-- `containsSubstr s pat`: CPython `pat in s`. -/
def containsSubstr (s pat : String) : Bool := subOf pat.data s.data

/-- Decompose a text into `(line content, line terminator)` pairs, the
terminator being `"\n"`, `"\r\n"`, `"\r"`, or `""` for an unterminated
final line.  `str.splitlines()` keeps the contents, `splitlines(True)`
and `readlines()` keep content plus terminator. -/
def lineBreaks : List Char → List (List Char × List Char)
  | [] => []
  | '\r' :: '\n' :: rest => ([], ['\r', '\n']) :: lineBreaks rest
  | '\n' :: rest => ([], ['\n']) :: lineBreaks rest
  | '\r' :: rest => ([], ['\r']) :: lineBreaks rest
  | c :: rest =>
    match lineBreaks rest with
    | [] => [([c], [])]
    | (l, t) :: ls => (c :: l, t) :: ls

/-- `s.splitlines()` (no kept ends). -/
def pySplitlines (s : String) : List String :=
  (lineBreaks s.data).map (fun p => ⟨p.1⟩)

/-- `s.splitlines(True)` / `f.readlines()` (line terminators kept). -/
def pySplitlinesKeep (s : String) : List String :=
  (lineBreaks s.data).map (fun p => ⟨p.1 ++ p.2⟩)

/-- `"".join(lines)` / `f.writelines(lines)`. -/
def strJoin (ls : List String) : String := ⟨(ls.map String.data).flatten⟩

/-- Helper `_find_sublist(full_list, sub_list)` of dap.py: all start
indices at which `sub` occurs as a contiguous sublist of `full`.
Python's `range(n - m + 1)` is empty when `m > n`, hence the guarded
`full.length + 1 - sub.length` under truncated subtraction. -/
def findSublist (full sub : List String) : List Nat :=
  if sub.length = 0 then []
  else
    (List.range (full.length + 1 - sub.length)).filter
      (fun i => decide ((full.drop i).take sub.length = sub))

/-- `find_occurrences(source_lines, search_block_str)` of dap.py: the
three-tier block matcher.  Tier 1 (strict) compares the source lines with
trailing newline characters removed against the verbatim search lines;
tier 2 (trimmed) retries after stripping leading/trailing blank lines from
the search block, only when that stripping changed the block; tier 3
(loose) strips per-line whitespace from both sides.  (In the Python, the
trimmed line list is recomputed via the `locals()` fallback when tier 2
was skipped; both computations are the identical expression
`search_block_str.strip("\n\r").splitlines()`, hoisted here into a single
`let`.) -/
def find_occurrences (source_lines : List String) (search_block_str : String) :
    List Nat × Nat :=
  let src_strict := source_lines.map rstripNL
  let search_lines_strict := pySplitlines search_block_str
  let ms := findSublist src_strict search_lines_strict
  if ms ≠ [] then (ms, search_lines_strict.length)
  else
    let search_block_stripped := stripNLBoth search_block_str
    let search_lines_trimmed := pySplitlines search_block_stripped
    let msT :=
      if search_block_stripped ≠ search_block_str ∧ search_lines_trimmed ≠ [] then
        findSublist src_strict search_lines_trimmed
      else []
    if msT ≠ [] then (msT, search_lines_trimmed.length)
    else
      let src_loose := source_lines.map pyStrip
      let search_lines_loose := search_lines_trimmed.map pyStrip
      if search_lines_loose = [] then ([], 0)
      else (findSublist src_loose search_lines_loose, search_lines_trimmed.length)

/-- The Edit record produced by every dialect parser: the dicts yielded by
`parse_diff_fenced`, `parse_arrow_blocks`, `parse_source_dest_blocks` and
`parse_delete_commands`. -/
structure Edit where
  file_path : String
  search_block : String
  replace_block : String
  delete_file : Bool
deriving Repr, DecidableEq

/-- Parser state of the three stateful dialect parsers:
`"idle"`, `"in_search"`, `"in_replace"`. -/
inductive Mode where
  | idle
  | inSearch
  | inReplace
deriving Repr, DecidableEq

/-- Loop state of `parse_diff_fenced`: the mutable locals of the Python
function.  `file_path = none` models Python's `None`. -/
structure DFState where
  mode : Mode
  previous_line : String
  file_path : Option String
  search_lines : List String
  replace_lines : List String
  edits : List Edit
deriving Repr, DecidableEq

/-- One loop iteration of `parse_diff_fenced`.  Emitting a block while
`file_path` is still `None` executes `None.strip()` in the Python and
raises `AttributeError`; that is the `none` result. -/
def dfStep (st : DFState) (line : String) : Option DFState :=
  let stripped_line := pyStrip line
  match st.mode with
  | .idle =>
    if stripped_line = "<<<<<<< SEARCH" then
      let potential_path := pyStrip st.previous_line
      let fp := if potential_path ≠ "" then some potential_path else st.file_path
      some { st with
              mode := .inSearch
              file_path := fp
              search_lines := []
              replace_lines := [] }
    else
      some { st with previous_line := if stripped_line ≠ "" then line else "" }
  | .inSearch =>
    if stripped_line = "=======" then some { st with mode := .inReplace }
    else some { st with search_lines := st.search_lines ++ [line] }
  | .inReplace =>
    if stripped_line = ">>>>>>> REPLACE" then
      match st.file_path with
      | none => none
      | some fp =>
        some { st with
                mode := .idle
                previous_line := ""
                edits := st.edits ++
                  [⟨pyStrip fp, strJoin st.search_lines, strJoin st.replace_lines, false⟩] }
    else some { st with replace_lines := st.replace_lines ++ [line] }

/-- `parse_diff_fenced(patch_content)`: the SEARCH/REPLACE fenced dialect
parser.  `none` models the uncaught `AttributeError` raised when a block
completes with no file path ever established. -/
def parse_diff_fenced (patch_content : String) : Option (List Edit) :=
  ((pySplitlinesKeep patch_content).foldlM dfStep
    ⟨.idle, "", none, [], [], []⟩).map (·.edits)

/-- Loop state of `parse_arrow_blocks` and `parse_source_dest_blocks`.
Python initialises `file_path = None`; both parsers test it only for
falsiness (`if not file_path`) and can reach an emit only after an opener
line assigned a stripped (hence `None`-free) value, so `None` is modelled
as the empty string. -/
structure ABState where
  mode : Mode
  file_path : String
  search_lines : List String
  replace_lines : List String
  edits : List Edit
deriving Repr, DecidableEq

/-- One loop iteration of `parse_arrow_blocks`. -/
def abStep (st : ABState) (line : String) : ABState :=
  let stripped_line := pyStrip line
  match st.mode with
  | .idle =>
    if strStarts stripped_line "<<<< " && !strStarts stripped_line "<<<<<<<" then
      { st with
         mode := .inSearch
         file_path := pyStrip ⟨stripped_line.data.drop 5⟩
         search_lines := []
         replace_lines := [] }
    else st
  | .inSearch =>
    if stripped_line = "====" then { st with mode := .inReplace }
    else { st with search_lines := st.search_lines ++ [line] }
  | .inReplace =>
    if stripped_line = ">>>>" then
      { st with
         mode := .idle
         edits := st.edits ++
           [⟨st.file_path, strJoin st.search_lines, strJoin st.replace_lines, false⟩] }
    else { st with replace_lines := st.replace_lines ++ [line] }

/-- `parse_arrow_blocks(patch_content)`: the `<<<< path` arrow-block
dialect parser. -/
def parse_arrow_blocks (patch_content : String) : List Edit :=
  ((pySplitlinesKeep patch_content).foldl abStep ⟨.idle, "", [], [], []⟩).edits

/-- One loop iteration of `parse_source_dest_blocks`. -/
def sdStep (st : ABState) (line : String) : ABState :=
  let stripped_line := pyStrip line
  match st.mode with
  | .idle =>
    if strStarts stripped_line ">>>> " && !strStarts stripped_line ">>>>>>>" then
      { st with file_path := pyStrip ⟨stripped_line.data.drop 5⟩ }
    else if stripped_line = "<<<<" then
      if st.file_path = "" then st
      else { st with mode := .inSearch, search_lines := [], replace_lines := [] }
    else st
  | .inSearch =>
    if stripped_line = "====" then { st with mode := .inReplace }
    else { st with search_lines := st.search_lines ++ [line] }
  | .inReplace =>
    if stripped_line = ">>>>" then
      { st with
         mode := .idle
         edits := st.edits ++
           [⟨st.file_path, strJoin st.search_lines, strJoin st.replace_lines, false⟩] }
    else { st with replace_lines := st.replace_lines ++ [line] }

/-- `parse_source_dest_blocks(patch_content)`: the `>>>> path` / `<<<<`
source/destination dialect parser. -/
def parse_source_dest_blocks (patch_content : String) : List Edit :=
  ((pySplitlinesKeep patch_content).foldl sdStep ⟨.idle, "", [], [], []⟩).edits

/-- Text before the first occurrence of `pat` (the first element of
CPython's `line.split(pat)`). -/
def beforeFirst (pat : List Char) : List Char → List Char
  | [] => []
  | c :: cs => if leads pat (c :: cs) then [] else c :: beforeFirst pat cs

/-- `parse_delete_commands(patch_content)`: one edit per stripped line
that ends with `<<<<<<< DELETE`; the file path is the stripped text before
the marker, and blank paths are skipped. -/
def parse_delete_commands (patch_content : String) : List Edit :=
  (pySplitlines patch_content).filterMap fun rawLine =>
    let line := pyStrip rawLine
    if strEnds line "<<<<<<< DELETE" then
      let file_path := pyStrip ⟨beforeFirst "<<<<<<< DELETE".data line.data⟩
      if file_path ≠ "" then some ⟨file_path, "", "", true⟩ else none
    else none

/-- The filesystem model: a finite map from path to file content.
`os.path.exists` and a successful `open(...).read()` are both `fsRead`. -/
abbrev FS := List (String × String)

/-- Read a file (`none` when the path does not exist). -/
def fsRead : FS → String → Option String
  | [], _ => none
  | (p, c) :: rest, q => if p = q then some c else fsRead rest q

/-- Write (create or overwrite) a file. -/
def fsWrite (fs : FS) (p c : String) : FS :=
  (p, c) :: fs.filter (fun e => e.1 ≠ p)

/-- `os.remove`. -/
def fsRemove (fs : FS) (p : String) : FS :=
  fs.filter (fun e => e.1 ≠ p)

/-- The per-patch body of the `run_preflight_checks` loop, minus the
`check_prefix` shared by every message: `none` when the check prints OK,
`some suffix` when the check appends `check_prefix + suffix` to `errors`.
The Python also appends a "Could not read file" error when `open` raises;
unreadable-but-existing files are outside the filesystem model. -/
def preflightIssue (fs : FS) (patch : Edit) : Option String :=
  if patch.delete_file then
    if (fsRead fs patch.file_path).isSome then none
    else some " FAILED (File not found, cannot delete)"
  else if pyStrip patch.search_block = "" then
    match fsRead fs patch.file_path with
    | none => none
    | some content =>
      if pyStrip content = "" then none
      else some " FAILED (Search block is empty, but target file is not empty)"
  else
    match fsRead fs patch.file_path with
    | none => some " FAILED (File not found)"
    | some content =>
      let source_lines := pySplitlinesKeep content
      let count := (find_occurrences source_lines patch.search_block).1.length
      if count = 0 then some " FAILED (Search block not found)"
      else if count > 1 then
        some (" FAILED (Search block is ambiguous, found " ++ toString count ++ " times)")
      else none

/-- `check_prefix` of `run_preflight_checks`: `i` is the 0-based loop
index, the message shows `i + 1`. -/
def checkPrefix (i : Nat) (patch : Edit) : String :=
  "  - Patch #" ++ toString (i + 1) ++ " for \x27" ++ patch.file_path ++ "\x27:"

/-- The full diagnostic for patch number `i` (0-based), or `none` if it
passes. -/
def preflightError (fs : FS) (i : Nat) (patch : Edit) : Option String :=
  (preflightIssue fs patch).map (fun msg => checkPrefix i patch ++ msg)

/-- The `errors` list accumulated by the `enumerate(patches)` loop of
`run_preflight_checks`, starting at index `i`. -/
def preflightErrors (fs : FS) (i : Nat) : List Edit → List String
  | [] => []
  | patch :: rest =>
    match preflightError fs i patch with
    | some e => e :: preflightErrors fs (i + 1) rest
    | none => preflightErrors fs (i + 1) rest

/-- `run_preflight_checks(patches)`: `(True, [])` when every patch passes
against the current filesystem, `(False, errors)` otherwise.  It only ever
reads `fs` — by construction it returns no filesystem. -/
def run_preflight_checks (fs : FS) (patches : List Edit) : Bool × List String :=
  let errors := preflightErrors fs 0 patches
  if errors = [] then (true, []) else (false, errors)

/-- `apply_patch(patch, dry_run)`: returns the filesystem after the call
together with the boolean result.  Failures the Python catches and turns
into `False` (deleting or replacing into a missing file, ambiguous or
missing match at apply time) keep the filesystem unchanged. -/
def apply_patch (fs : FS) (patch : Edit) (dry_run : Bool) : FS × Bool :=
  if patch.delete_file then
    if dry_run then (fs, true)
    else
      match fsRead fs patch.file_path with
      | some _ => (fsRemove fs patch.file_path, true)
      | none => (fs, false)
  else if pyStrip patch.search_block = "" then
    if dry_run then (fs, true)
    else (fsWrite fs patch.file_path patch.replace_block, true)
  else
    match fsRead fs patch.file_path with
    | none => (fs, false)
    | some content =>
      let source_lines := pySplitlinesKeep content
      let found := find_occurrences source_lines patch.search_block
      match found.1 with
      | [start_idx] =>
        if dry_run then (fs, true)
        else
          let end_idx := start_idx + found.2
          let replace_lines := pySplitlinesKeep patch.replace_block
          let new_lines :=
            source_lines.take start_idx ++ replace_lines ++ source_lines.drop end_idx
          (fsWrite fs patch.file_path (strJoin new_lines), true)
      | _ => (fs, false)

/-- The apply loop of `main`: applies every patch in order, threading the
filesystem and counting successes and failures. -/
def applyAll (dry : Bool) : FS → List Edit → FS × Nat × Nat
  | fs, [] => (fs, 0, 0)
  | fs, patch :: rest =>
    let step := apply_patch fs patch dry
    let restRun := applyAll dry step.1 rest
    if step.2 then (restRun.1, restRun.2.1 + 1, restRun.2.2)
    else (restRun.1, restRun.2.1, restRun.2.2 + 1)

/-- Observable outcome of one `main` invocation past parsing. -/
inductive Outcome where
  | noPatches
  | preflightFailed (errors : List String)
  | applied (succeeded failed : Nat)
deriving Repr, DecidableEq

/-- The post-parse tail of `main` (dap.py lines 446-476): report when no
patches were parsed, abort on a failed preflight without touching the
filesystem, otherwise run the apply loop. -/
def run_batch (fs : FS) (patches : List Edit) (dry : Bool) : FS × Outcome :=
  if patches = [] then (fs, .noPatches)
  else
    let pre := run_preflight_checks fs patches
    if pre.1 then
      let runAll := applyAll dry fs patches
      (runAll.1, .applied runAll.2.1 runAll.2.2)
    else (fs, .preflightFailed pre.2)

/-- The four patch dialects `main` can detect. -/
inductive Dialect where
  | searchReplace
  | deleteCommands
  | sourceDest
  | arrowBlock
deriving Repr, DecidableEq

/-- `re.search(r"^>>>> ", patch_content, re.MULTILINE)`: the pattern
matches at the start of the text or directly after a `\n`. -/
def regexCaretLine (t : String) : Bool :=
  strStarts t ">>>> " || containsSubstr t "\n>>>> "

/-- The dialect-detection cascade of `main` (dap.py lines 432-445),
in source order: first match wins, exactly one dialect is chosen. -/
def detectDialect (t : String) : Dialect :=
  if containsSubstr t "<<<<<<< SEARCH" then .searchReplace
  else if containsSubstr t " <<<<<<< DELETE" then .deleteCommands
  else if regexCaretLine t then .sourceDest
  else .arrowBlock

/-- Dispatch to the single parser the detector selected.  `none` models
the uncaught exception `parse_diff_fenced` can raise. -/
def selectAndParse (t : String) : Option (List Edit) :=
  match detectDialect t with
  | .searchReplace => parse_diff_fenced t
  | .deleteCommands => some (parse_delete_commands t)
  | .sourceDest => some (parse_source_dest_blocks t)
  | .arrowBlock => some (parse_arrow_blocks t)

/-- `main` on raw patch text, from dialect detection to the end:
the filesystem after the run and the observable outcome. -/
def main_run (fs : FS) (patch_content : String) (dry : Bool) :
    Option (FS × Outcome) :=
  (selectAndParse patch_content).map (fun patches => run_batch fs patches dry)

/-- The lines of a text, split at `'\n'` characters.  This is the line
notion of the spec's detector contract: `re.MULTILINE`'s `^` anchors at
the start of the text and directly after each `'\n'`. -/
def nlSplit : List Char → List (List Char)
  | [] => [[]]
  | c :: rest =>
    if c = '\n' then [] :: nlSplit rest
    else
      match nlSplit rest with
      | [] => [[c]]
      | l :: ls => (c :: l) :: ls

/-- The spec-side notion of the lines of a raw text. -/
def textLines (t : String) : List String := (nlSplit t.data).map (fun l => ⟨l⟩)

/-- Modelled from the spec's words (detector contract, predicate 2):
the text contains a line matching `<path> <<<<<<< DELETE`, i.e. a line in
which the delete marker occurs preceded by the path text (a search-style
match within the line; `p` and `q` may be empty). -/
def specHasDeleteLine (t : String) : Prop :=
  ∃ l ∈ textLines t, ∃ p q : String, l = p ++ " <<<<<<< DELETE" ++ q

/-- Modelled from the spec's words (detector contract, predicate 3):
the text contains a line beginning with `>>>> `.  A line beginning with
`>>>>>>> ` never has this form, since its fifth character is `>`. -/
def specHasCaretLine (t : String) : Prop :=
  ∃ l ∈ textLines t, ∃ r : String, l = ">>>> " ++ r

/-! ## Lemmas about `_find_sublist` -/

theorem mem_findSublist {full sub : List String} {i : Nat} :
    i ∈ findSublist full sub ↔
      sub ≠ [] ∧ i + sub.length ≤ full.length ∧ (full.drop i).take sub.length = sub := by
  unfold findSublist
  by_cases h : sub.length = 0
  · rw [if_pos h]
    simp [List.length_eq_zero.mp h]
  · rw [if_neg h]
    simp only [List.mem_filter, List.mem_range, decide_eq_true_eq]
    constructor
    · rintro ⟨hr, hs⟩
      refine ⟨fun he => h (by simp [he]), by omega, hs⟩
    · rintro ⟨hne, hle, hs⟩
      have hpos : 0 < sub.length := Nat.pos_of_ne_zero h
      exact ⟨by omega, hs⟩

theorem findSublist_pairwise (full sub : List String) :
    (findSublist full sub).Pairwise (· < ·) := by
  unfold findSublist
  split
  · exact List.Pairwise.nil
  · exact (List.pairwise_lt_range _).sublist (List.filter_sublist _)

/-! ## Lemmas about substrings -/

theorem subOf_append_left {pat l : List Char} (x : List Char)
    (h : subOf pat l = true) : subOf pat (x ++ l) = true := by
  induction x with
  | nil => simpa using h
  | cons c cs ih => simp [subOf, ih]

theorem containsSubstr_append_left {b : String} (a : String) {pat : String}
    (h : containsSubstr b pat = true) : containsSubstr (a ++ b) pat = true := by
  unfold containsSubstr at *
  rw [String.data_append]
  exact subOf_append_left a.data h

/-! ## Lemmas about line splitting -/

theorem lineBreaks_rn (rest : List Char) :
    lineBreaks ('\r' :: '\n' :: rest) = ([], ['\r', '\n']) :: lineBreaks rest := rfl

theorem lineBreaks_n (rest : List Char) :
    lineBreaks ('\n' :: rest) = ([], ['\n']) :: lineBreaks rest := rfl

theorem lineBreaks_r (c' : Char) (rest' : List Char) (h : c' ≠ '\n') :
    lineBreaks ('\r' :: c' :: rest') = ([], ['\r']) :: lineBreaks (c' :: rest') := by
  rw [lineBreaks.eq_def]
  split
  · rename_i heq
    simp at heq
  · rename_i rest heq
    injection heq with h1 h2
    injection h2 with h3 _
    exact absurd h3 h
  · rename_i rest heq
    injection heq with h1 _
    exact absurd h1 (by decide)
  · rename_i rest hc heq
    injection heq with _ h2
    rw [h2]
  · rename_i c2 rest2 hc hn2 hr2 heq
    injection heq with h1 _
    exact absurd h1.symm hr2

theorem lineBreaks_c (c : Char) (rest : List Char) (hn : c ≠ '\n') (hr : c ≠ '\r') :
    lineBreaks (c :: rest) =
      (match lineBreaks rest with
       | [] => [([c], [])]
       | (l, t) :: ls => (c :: l, t) :: ls) := by
  rw [lineBreaks.eq_def]
  split
  · rename_i heq
    simp at heq
  · rename_i rest2 heq
    injection heq with h1 _
    exact absurd h1 hr
  · rename_i rest2 heq
    injection heq with h1 _
    exact absurd h1 hn
  · rename_i rest2 hc heq
    injection heq with h1 _
    exact absurd h1 hr
  · rename_i c2 rest2 hc hn2 hr2 heq
    injection heq with h1 h2
    rw [← h1, ← h2]

/-- Concatenating every line content with its terminator restores the
original character list: `"".join(s.splitlines(True)) == s`. -/
theorem lineBreaks_flatten (cs : List Char) :
    ((lineBreaks cs).map (fun p => p.1 ++ p.2)).flatten = cs := by
  induction cs using lineBreaks.induct with
  | case1 => rfl
  | case2 rest ih => simp [lineBreaks_rn, ih]
  | case3 rest ih => simp [lineBreaks_n, ih]
  | case4 rest h1 ih =>
    cases rest with
    | nil => rfl
    | cons c' r' =>
      have hne : c' ≠ '\n' := fun hh => h1 r' (by rw [hh])
      rw [lineBreaks_r c' r' hne]
      simp [ih]
  | case5 c rest h1 hn hr h4 ih =>
    have hn' : c ≠ '\n' := fun hh => hn hh
    have hr' : c ≠ '\r' := fun hh => hr hh
    rw [lineBreaks_c c rest hn' hr', h4]
    rw [h4] at ih
    simp at ih
    simp [← ih]
  | case6 c rest h1 hn hr l t ls h4 ih =>
    have hn' : c ≠ '\n' := fun hh => hn hh
    have hr' : c ≠ '\r' := fun hh => hr hh
    rw [lineBreaks_c c rest hn' hr', h4]
    rw [h4] at ih
    simp only [List.map_cons, List.flatten_cons] at ih ⊢
    rw [← ih]
    simp

/-- Every line content from `lineBreaks` is free of newline characters,
and every terminator consists solely of newline characters. -/
theorem lineBreaks_chars (cs : List Char) :
    ∀ p ∈ lineBreaks cs,
      (∀ c ∈ p.1, isNLChar c = false) ∧ (∀ c ∈ p.2, isNLChar c = true) := by
  induction cs using lineBreaks.induct with
  | case1 => intro p hp; exact absurd hp (List.not_mem_nil p)
  | case2 rest ih =>
    rw [lineBreaks_rn]
    intro p hp
    rcases List.mem_cons.mp hp with rfl | hp'
    · exact ⟨fun c hc => absurd hc (List.not_mem_nil c), by intro c hc; fin_cases hc <;> rfl⟩
    · exact ih p hp'
  | case3 rest ih =>
    rw [lineBreaks_n]
    intro p hp
    rcases List.mem_cons.mp hp with rfl | hp'
    · exact ⟨fun c hc => absurd hc (List.not_mem_nil c), by intro c hc; fin_cases hc <;> rfl⟩
    · exact ih p hp'
  | case4 rest h1 ih =>
    cases rest with
    | nil =>
      intro p hp
      rcases List.mem_cons.mp hp with rfl | hp'
      · exact ⟨fun c hc => absurd hc (List.not_mem_nil c), by intro c hc; fin_cases hc <;> rfl⟩
      · exact absurd hp' (List.not_mem_nil p)
    | cons c' r' =>
      have hne : c' ≠ '\n' := fun hh => h1 r' (by rw [hh])
      rw [lineBreaks_r c' r' hne]
      intro p hp
      rcases List.mem_cons.mp hp with rfl | hp'
      · exact ⟨fun c hc => absurd hc (List.not_mem_nil c), by intro c hc; fin_cases hc <;> rfl⟩
      · exact ih p hp'
  | case5 c rest h1 hn hr h4 ih =>
    have hn' : c ≠ '\n' := fun hh => hn hh
    have hr' : c ≠ '\r' := fun hh => hr hh
    rw [lineBreaks_c c rest hn' hr', h4]
    intro p hp
    rcases List.mem_cons.mp hp with rfl | hp'
    · refine ⟨?_, fun c hc => absurd hc (List.not_mem_nil c)⟩
      intro x hx
      rcases List.mem_singleton.mp hx with rfl
      simp [isNLChar, hn', hr']
    · exact absurd hp' (List.not_mem_nil p)
  | case6 c rest h1 hn hr l t ls h4 ih =>
    have hn' : c ≠ '\n' := fun hh => hn hh
    have hr' : c ≠ '\r' := fun hh => hr hh
    rw [lineBreaks_c c rest hn' hr', h4]
    intro p hp
    rcases List.mem_cons.mp hp with rfl | hp'
    · have hlt := ih (l, t) (by rw [h4]; exact List.mem_cons_self _ _)
      refine ⟨?_, hlt.2⟩
      intro x hx
      rcases List.mem_cons.mp hx with rfl | hx'
      · simp [isNLChar, hn', hr']
      · exact hlt.1 x hx'
    · exact ih p (by rw [h4]; exact List.mem_cons_of_mem _ hp')

theorem lineBreaks_ne_nil {cs : List Char} (h : cs ≠ []) : lineBreaks cs ≠ [] := by
  cases cs with
  | nil => exact absurd rfl h
  | cons c rest =>
    rw [lineBreaks.eq_def]
    split
    · rename_i heq
      simp at heq
    · simp
    · simp
    · simp
    · split <;> simp

theorem dropWhile_append_all {p : Char → Bool} {a : List Char} (b : List Char)
    (h : ∀ c ∈ a, p c = true) : (a ++ b).dropWhile p = b.dropWhile p := by
  induction a with
  | nil => rfl
  | cons x xs ih =>
    rw [List.cons_append, List.dropWhile_cons_of_pos (h x (List.mem_cons_self _ _))]
    exact ih (fun c hc => h c (List.mem_cons_of_mem _ hc))

theorem dropWhile_eq_self_all {p : Char → Bool} {a : List Char}
    (h : ∀ c ∈ a, p c = false) : a.dropWhile p = a := by
  cases a with
  | nil => rfl
  | cons x xs =>
    rw [List.dropWhile_cons_of_neg]
    rw [h x (List.mem_cons_self _ _)]
    exact Bool.false_ne_true

/-- `rstrip("\n\r")` on a kept-ends line removes exactly the terminator. -/
theorem rstripNL_content_term {l t : List Char}
    (hl : ∀ c ∈ l, isNLChar c = false) (ht : ∀ c ∈ t, isNLChar c = true) :
    rstripNL ⟨l ++ t⟩ = ⟨l⟩ := by
  unfold rstripNL
  congr 1
  rw [List.reverse_append,
    dropWhile_append_all l.reverse (fun c hc => ht c (List.mem_reverse.mp hc)),
    dropWhile_eq_self_all (fun c hc => hl c (List.mem_reverse.mp hc)),
    List.reverse_reverse]

/-- Stripping each kept-ends line's trailing newline characters yields
exactly `splitlines()` without kept ends. -/
theorem map_rstripNL_splitKeep (s : String) :
    (pySplitlinesKeep s).map rstripNL = pySplitlines s := by
  unfold pySplitlinesKeep pySplitlines
  rw [List.map_map]
  refine List.map_congr_left ?_
  intro p hp
  have h := lineBreaks_chars s.data p hp
  exact rstripNL_content_term h.1 h.2

/-- `"".join(s.splitlines(True)) == s` at the `String` level. -/
theorem strJoin_splitKeep (s : String) : strJoin (pySplitlinesKeep s) = s := by
  unfold strJoin pySplitlinesKeep
  rw [List.map_map]
  have : (String.data ∘ fun p : List Char × List Char => (⟨p.1 ++ p.2⟩ : String)) =
      fun p : List Char × List Char => p.1 ++ p.2 := rfl
  rw [this, lineBreaks_flatten]

theorem pySplitlines_ne_nil {s : String} (h : s ≠ "") : pySplitlines s ≠ [] := by
  unfold pySplitlines
  have hd : s.data ≠ [] := by
    intro hdata
    apply h
    cases s with
    | mk d =>
      simp only at hdata
      rw [hdata]
  intro hmap
  exact lineBreaks_ne_nil hd (List.map_eq_nil_iff.mp hmap)

theorem splitKeep_length (s : String) :
    (pySplitlinesKeep s).length = (pySplitlines s).length := by
  unfold pySplitlinesKeep pySplitlines
  rw [List.length_map, List.length_map]

theorem findSublist_self {l : List String} (h : l ≠ []) : findSublist l l = [0] := by
  unfold findSublist
  rw [if_neg (by simpa using h)]
  have h1 : l.length + 1 - l.length = 1 := by omega
  have hr1 : List.range 1 = [0] := by decide
  rw [h1, hr1]
  simp [List.take_length]

/-! ## Lemmas about the preflight validator -/

/-- Whether a check passes does not depend on the patch's position in the
batch: only the diagnostic's `check_prefix` does. -/
theorem preflightError_eq_none_iff (fs : FS) (i : Nat) (patch : Edit) :
    preflightError fs i patch = none ↔ preflightIssue fs patch = none := by
  unfold preflightError
  cases preflightIssue fs patch <;> simp

/-- If some member of the batch fails its check, the accumulated error
list is nonempty, from any starting index. -/
theorem preflightErrors_ne_nil (fs : FS) (p : Edit) :
    ∀ (patches : List Edit), p ∈ patches → preflightIssue fs p ≠ none →
      ∀ i, preflightErrors fs i patches ≠ []
  | [], hmem, _, _ => absurd hmem (List.not_mem_nil p)
  | q :: rest, hmem, hfail, i => by
    rcases List.mem_cons.mp hmem with rfl | hmem'
    · rw [preflightErrors]
      unfold preflightError
      cases hq : preflightIssue fs p with
      | none => exact absurd hq hfail
      | some msg => simp
    · rw [preflightErrors]
      cases hq : preflightError fs i q with
      | none => simpa using preflightErrors_ne_nil fs p rest hmem' hfail (i + 1)
      | some msg => simp

/-- `run_preflight_checks` on a batch with a nonempty error list. -/
theorem run_preflight_checks_failed {fs : FS} {patches : List Edit}
    (h : preflightErrors fs 0 patches ≠ []) :
    run_preflight_checks fs patches = (false, preflightErrors fs 0 patches) := by
  unfold run_preflight_checks
  rw [if_neg h]

/-- The `main` gate: a failed preflight aborts with the filesystem
untouched and the full diagnostic list reported. -/
theorem run_batch_preflight_failed {fs : FS} {patches : List Edit} {dry : Bool}
    (hne : patches ≠ []) (h : (run_preflight_checks fs patches).1 = false) :
    run_batch fs patches dry =
      (fs, .preflightFailed (run_preflight_checks fs patches).2) := by
  unfold run_batch
  rw [if_neg hne]
  dsimp only
  rw [if_neg (by rw [h]; exact Bool.false_ne_true)]

/-! ## Lemmas about `find_occurrences` -/

/-- Whatever tier fires, `find_occurrences` either reports no match at all
or returns a `_find_sublist` result over a line list as long as the
source, paired with the searched sublist's length. -/
theorem find_occurrences_shape (src : List String) (sb : String) :
    find_occurrences src sb = ([], 0) ∨
      ∃ full sub, full.length = src.length ∧
        find_occurrences src sb = (findSublist full sub, sub.length) := by
  unfold find_occurrences
  dsimp only
  by_cases h1 : findSublist (src.map rstripNL) (pySplitlines sb) ≠ []
  · rw [if_pos h1]
    exact Or.inr ⟨src.map rstripNL, pySplitlines sb, List.length_map _ _, rfl⟩
  · rw [if_neg h1]
    by_cases hc : stripNLBoth sb ≠ sb ∧ pySplitlines (stripNLBoth sb) ≠ []
    · rw [if_pos hc]
      by_cases h2 : findSublist (src.map rstripNL) (pySplitlines (stripNLBoth sb)) ≠ []
      · rw [if_pos h2]
        exact Or.inr ⟨src.map rstripNL, pySplitlines (stripNLBoth sb),
          List.length_map _ _, rfl⟩
      · rw [if_neg h2]
        by_cases h3 : (pySplitlines (stripNLBoth sb)).map pyStrip = []
        · rw [if_pos h3]
          exact Or.inl rfl
        · rw [if_neg h3]
          refine Or.inr ⟨src.map pyStrip, (pySplitlines (stripNLBoth sb)).map pyStrip,
            List.length_map _ _, ?_⟩
          rw [List.length_map]
    · rw [if_neg hc]
      by_cases h2 : ([] : List Nat) ≠ []
      · exact absurd rfl h2
      · rw [if_neg h2]
        by_cases h3 : (pySplitlines (stripNLBoth sb)).map pyStrip = []
        · rw [if_pos h3]
          exact Or.inl rfl
        · rw [if_neg h3]
          refine Or.inr ⟨src.map pyStrip, (pySplitlines (stripNLBoth sb)).map pyStrip,
            List.length_map _ _, ?_⟩
          rw [List.length_map]

/-! ## Lemmas about prefixes, substrings and newline-split lines -/

theorem leads_iff {p s : List Char} : leads p s = true ↔ ∃ r, s = p ++ r := by
  induction p generalizing s with
  | nil => simp [leads]
  | cons a as ih =>
    cases s with
    | nil => simp [leads]
    | cons b bs =>
      simp only [leads, Bool.and_eq_true, decide_eq_true_eq, ih, List.cons_append,
        List.cons.injEq]
      constructor
      · rintro ⟨rfl, r, rfl⟩
        exact ⟨r, rfl, rfl⟩
      · rintro ⟨r, rfl, rfl⟩
        exact ⟨rfl, r, rfl⟩

theorem subOf_iff {p s : List Char} : subOf p s = true ↔ ∃ x z, s = x ++ p ++ z := by
  induction s with
  | nil =>
    cases p with
    | nil => exact ⟨fun _ => ⟨[], [], rfl⟩, fun _ => rfl⟩
    | cons a as => simp [subOf]
  | cons c cs ih =>
    rw [subOf]
    simp only [Bool.or_eq_true, leads_iff, ih]
    constructor
    · rintro (⟨r, hr⟩ | ⟨x, z, hx⟩)
      · exact ⟨[], r, by simpa using hr⟩
      · exact ⟨c :: x, z, by rw [hx]; simp⟩
    · rintro ⟨x, z, hx⟩
      cases x with
      | nil => exact Or.inl ⟨z, by simpa using hx⟩
      | cons x0 xs =>
        simp only [List.cons_append] at hx
        injection hx with h1 h2
        exact Or.inr ⟨xs, z, h2⟩

theorem leads_append_ext {p s : List Char} (e : List Char) (h : leads p s = true) :
    leads p (s ++ e) = true := by
  rcases leads_iff.mp h with ⟨r, rfl⟩
  exact leads_iff.mpr ⟨r ++ e, by simp⟩

theorem subOf_append_right {p s : List Char} (e : List Char) (h : subOf p s = true) :
    subOf p (s ++ e) = true := by
  rcases subOf_iff.mp h with ⟨x, z, rfl⟩
  exact subOf_iff.mpr ⟨x, z ++ e, by simp⟩

theorem subOf_of_leads {p s : List Char} (h : leads p s = true) : subOf p s = true := by
  cases s with
  | nil =>
    cases p with
    | nil => rfl
    | cons a as => simp [leads] at h
  | cons c cs =>
    rw [subOf, h]
    rfl

theorem nlSplit_head (cs : List Char) :
    ∃ ls, nlSplit cs = cs.takeWhile (fun x => !(x == '\n')) :: ls := by
  induction cs with
  | nil => exact ⟨[], rfl⟩
  | cons c rest ih =>
    by_cases hc : c = '\n'
    · subst hc
      refine ⟨nlSplit rest, ?_⟩
      rw [List.takeWhile_cons_of_neg (by simp)]
      simp [nlSplit]
    · obtain ⟨ls, hls⟩ := ih
      refine ⟨ls, ?_⟩
      rw [List.takeWhile_cons_of_pos (by simp [hc])]
      simp only [nlSplit, if_neg hc, hls]

theorem leads_takeWhile {p : List Char} (hnl : ∀ c ∈ p, c ≠ '\n') :
    ∀ {cs : List Char}, leads p cs = true →
      leads p (cs.takeWhile (fun x => !(x == '\n'))) = true := by
  induction p with
  | nil => intro cs _; rfl
  | cons a as ih =>
    intro cs h
    cases cs with
    | nil => simp [leads] at h
    | cons b bs =>
      rw [leads] at h
      obtain ⟨hab, hrest⟩ := (Bool.and_eq_true _ _).mp h
      have hab' : a = b := by simpa using hab
      have hbn : b ≠ '\n' := hab' ▸ hnl a (List.mem_cons_self _ _)
      rw [List.takeWhile_cons_of_pos (by simp [hbn])]
      rw [leads]
      refine (Bool.and_eq_true _ _).mpr ⟨by simpa using hab', ?_⟩
      exact ih (fun c hc => hnl c (List.mem_cons_of_mem _ hc)) hrest

/-- An occurrence of a newline-free pattern lies within a single
newline-split line, and conversely. -/
theorem subOf_nlSplit {p : List Char} (hp : p ≠ []) (hnl : ∀ c ∈ p, c ≠ '\n') :
    ∀ cs : List Char, (subOf p cs = true ↔ ∃ l ∈ nlSplit cs, subOf p l = true)
  | [] => by
    rw [show nlSplit [] = [[]] from rfl]
    cases p with
    | nil => exact absurd rfl hp
    | cons a as => simp [subOf]
  | c :: rest => by
    by_cases hc : c = '\n'
    · subst hc
      have hleads : leads p ('\n' :: rest) = false := by
        cases p with
        | nil => exact absurd rfl hp
        | cons a as =>
          have ha : a ≠ '\n' := hnl a (List.mem_cons_self _ _)
          simp [leads, ha]
      rw [subOf, hleads]
      simp only [Bool.false_or]
      rw [subOf_nlSplit hp hnl rest]
      rw [show nlSplit ('\n' :: rest) = [] :: nlSplit rest from by simp [nlSplit]]
      constructor
      · rintro ⟨l, hl, hsub⟩
        exact ⟨l, List.mem_cons_of_mem _ hl, hsub⟩
      · rintro ⟨l, hl, hsub⟩
        rcases List.mem_cons.mp hl with rfl | hl'
        · rw [subOf] at hsub
          cases p with
          | nil => exact absurd rfl hp
          | cons a as => simp at hsub
        · exact ⟨l, hl', hsub⟩
    · obtain ⟨ls, hhead⟩ := nlSplit_head rest
      have hstep : nlSplit (c :: rest) =
          (c :: rest.takeWhile (fun x => !(x == '\n'))) :: ls := by
        simp only [nlSplit, if_neg hc, hhead]
      rw [subOf, hstep]
      constructor
      · intro hyp
        rcases (Bool.or_eq_true _ _).mp hyp with hlead | hsub
        · refine ⟨c :: rest.takeWhile (fun x => !(x == '\n')),
            List.mem_cons_self _ _, ?_⟩
          have h2 := leads_takeWhile hnl hlead
          rw [List.takeWhile_cons_of_pos (by simp [hc])] at h2
          exact subOf_of_leads h2
        · rcases (subOf_nlSplit hp hnl rest).mp hsub with ⟨l, hl, hlsub⟩
          rw [hhead] at hl
          rcases List.mem_cons.mp hl with rfl | hl'
          · refine ⟨c :: rest.takeWhile (fun x => !(x == '\n')),
              List.mem_cons_self _ _, ?_⟩
            rw [subOf, hlsub]
            simp
          · exact ⟨l, List.mem_cons_of_mem _ hl', hlsub⟩
      · rintro ⟨l, hl, hsub⟩
        apply (Bool.or_eq_true _ _).mpr
        rcases List.mem_cons.mp hl with rfl | hl'
        · rw [subOf] at hsub
          rcases (Bool.or_eq_true _ _).mp hsub with hlead | hsub₀
          · left
            have h2 := leads_append_ext (rest.dropWhile (fun x => !(x == '\n'))) hlead
            rw [List.cons_append, List.takeWhile_append_dropWhile] at h2
            exact h2
          · right
            apply (subOf_nlSplit hp hnl rest).mpr
            refine ⟨rest.takeWhile (fun x => !(x == '\n')), ?_, hsub₀⟩
            rw [hhead]
            exact List.mem_cons_self _ _
        · right
          apply (subOf_nlSplit hp hnl rest).mpr
          exact ⟨l, by rw [hhead]; exact List.mem_cons_of_mem _ hl', hsub⟩

theorem nlSplit_append_nl (x ys : List Char) :
    ∃ pre, pre ≠ [] ∧ nlSplit (x ++ '\n' :: ys) = pre ++ nlSplit ys := by
  induction x with
  | nil => exact ⟨[[]], by simp, by simp [nlSplit]⟩
  | cons c x' ih =>
    obtain ⟨pre, hpre, hsplit⟩ := ih
    by_cases hc : c = '\n'
    · subst hc
      refine ⟨[] :: pre, by simp, ?_⟩
      rw [List.cons_append]
      rw [show nlSplit ('\n' :: (x' ++ '\n' :: ys)) =
        [] :: nlSplit (x' ++ '\n' :: ys) from by simp [nlSplit]]
      rw [hsplit, List.cons_append]
    · cases pre with
      | nil => exact absurd rfl hpre
      | cons h0 pre' =>
        refine ⟨(c :: h0) :: pre', by simp, ?_⟩
        rw [List.cons_append]
        simp only [nlSplit, if_neg hc, hsplit]
        rfl

/-- A line in the tail of the newline split is preceded by a `'\n'` in
the text: a prefix of such a line occurs in the text right after a
newline character. -/
theorem subOf_nl_of_tail_line {p : List Char} (hp : p ≠ []) :
    ∀ (cs : List Char) (l : List Char), l ∈ (nlSplit cs).tail →
      leads p l = true → subOf ('\n' :: p) cs = true
  | [], l, hl, _ => by
    rw [show nlSplit [] = [[]] from rfl] at hl
    simp at hl
  | c :: rest, l, hl, hlead => by
    by_cases hc : c = '\n'
    · subst hc
      rw [show nlSplit ('\n' :: rest) = [] :: nlSplit rest from by simp [nlSplit]] at hl
      simp only [List.tail_cons] at hl
      obtain ⟨ls, hhead⟩ := nlSplit_head rest
      rw [hhead] at hl
      rcases List.mem_cons.mp hl with rfl | hl'
      · have hlr : leads p rest = true := by
          have h2 := leads_append_ext (rest.dropWhile (fun x => !(x == '\n'))) hlead
          rwa [List.takeWhile_append_dropWhile] at h2
        rw [subOf]
        apply (Bool.or_eq_true _ _).mpr
        left
        rw [leads]
        exact (Bool.and_eq_true _ _).mpr ⟨by simp, hlr⟩
      · have hmem : l ∈ (nlSplit rest).tail := by
          rw [hhead]
          simpa using hl'
        have hrec := subOf_nl_of_tail_line hp rest l hmem hlead
        rw [subOf, hrec]
        simp
    · obtain ⟨ls, hhead⟩ := nlSplit_head rest
      have hstep : nlSplit (c :: rest) =
          (c :: rest.takeWhile (fun x => !(x == '\n'))) :: ls := by
        simp only [nlSplit, if_neg hc, hhead]
      rw [hstep] at hl
      simp only [List.tail_cons] at hl
      have hmem : l ∈ (nlSplit rest).tail := by
        rw [hhead]
        simpa using hl
      have hrec := subOf_nl_of_tail_line hp rest l hmem hlead
      rw [subOf, hrec]
      simp

/-- The code's `re.search(r"^>>>> ", t, re.MULTILINE)` check holds iff
some newline-split line of the text begins with `">>>> "`. -/
theorem regexCaretLine_iff (t : String) :
    regexCaretLine t = true ↔
      ∃ l ∈ nlSplit t.data, leads ">>>> ".data l = true := by
  unfold regexCaretLine strStarts containsSubstr
  constructor
  · intro h
    rcases (Bool.or_eq_true _ _).mp h with hlead | hsub
    · obtain ⟨ls, hhead⟩ := nlSplit_head t.data
      refine ⟨t.data.takeWhile (fun x => !(x == '\n')), ?_, ?_⟩
      · rw [hhead]
        exact List.mem_cons_self _ _
      · exact leads_takeWhile (by decide) hlead
    · rw [show ("\n>>>> ").data = '\n' :: ">>>> ".data from rfl] at hsub
      rcases subOf_iff.mp hsub with ⟨x, z, hxz⟩
      have hxz' : t.data = x ++ '\n' :: (">>>> ".data ++ z) := by
        rw [hxz]
        simp
      obtain ⟨pre, hpre, hsplit⟩ := nlSplit_append_nl x (">>>> ".data ++ z)
      obtain ⟨ls, hhead⟩ := nlSplit_head (">>>> ".data ++ z)
      refine ⟨(">>>> ".data ++ z).takeWhile (fun x => !(x == '\n')), ?_, ?_⟩
      · rw [hxz', hsplit, hhead]
        exact List.mem_append_right _ (List.mem_cons_self _ _)
      · exact leads_takeWhile (by decide) (leads_iff.mpr ⟨z, rfl⟩)
  · rintro ⟨l, hl, hlead⟩
    apply (Bool.or_eq_true _ _).mpr
    obtain ⟨ls, hhead⟩ := nlSplit_head t.data
    rw [hhead] at hl
    rcases List.mem_cons.mp hl with rfl | hl'
    · left
      have h2 := leads_append_ext (t.data.dropWhile (fun x => !(x == '\n'))) hlead
      rwa [List.takeWhile_append_dropWhile] at h2
    · right
      have hmem : l ∈ (nlSplit t.data).tail := by
        rw [hhead]
        exact hl'
      rw [show ("\n>>>> ").data = '\n' :: ">>>> ".data from rfl]
      exact subOf_nl_of_tail_line (by decide) t.data l hmem hlead

/-- The code's `" <<<<<<< DELETE" in t` check holds iff some
newline-split line of the text contains the delete marker. -/
theorem deleteMarker_iff (t : String) :
    containsSubstr t " <<<<<<< DELETE" = true ↔
      ∃ l ∈ nlSplit t.data, ∃ x z, l = x ++ " <<<<<<< DELETE".data ++ z := by
  unfold containsSubstr
  rw [subOf_nlSplit (by decide) (by decide) t.data]
  constructor
  · rintro ⟨l, hl, hsub⟩
    rcases subOf_iff.mp hsub with ⟨x, z, hxz⟩
    exact ⟨l, hl, x, z, hxz⟩
  · rintro ⟨l, hl, x, z, hld⟩
    exact ⟨l, hl, subOf_iff.mpr ⟨x, z, hld⟩⟩

/-- The spec-side delete-line predicate coincides with the code's
whole-text substring check. -/
theorem specHasDeleteLine_iff (t : String) :
    specHasDeleteLine t ↔ containsSubstr t " <<<<<<< DELETE" = true := by
  rw [deleteMarker_iff]
  unfold specHasDeleteLine textLines
  constructor
  · rintro ⟨l, hl, p, q, hpq⟩
    rcases List.mem_map.mp hl with ⟨lc, hlc, hmk⟩
    refine ⟨lc, hlc, p.data, q.data, ?_⟩
    have hdata := congrArg String.data (hmk.trans hpq)
    simp only [String.data_append] at hdata
    exact hdata
  · rintro ⟨lc, hlc, x, z, hdecomp⟩
    refine ⟨⟨lc⟩, List.mem_map.mpr ⟨lc, hlc, rfl⟩, ⟨x⟩, ⟨z⟩, ?_⟩
    show (⟨lc⟩ : String) = ⟨(x ++ " <<<<<<< DELETE".data) ++ z⟩
    exact congrArg String.mk hdecomp

/-- The spec-side caret-line predicate coincides with the code's
multiline-regex check. -/
theorem specHasCaretLine_iff (t : String) :
    specHasCaretLine t ↔ regexCaretLine t = true := by
  rw [regexCaretLine_iff]
  unfold specHasCaretLine textLines
  constructor
  · rintro ⟨l, hl, r, hr⟩
    rcases List.mem_map.mp hl with ⟨lc, hlc, hmk⟩
    refine ⟨lc, hlc, ?_⟩
    apply leads_iff.mpr
    refine ⟨r.data, ?_⟩
    have hdata := congrArg String.data (hmk.trans hr)
    simpa [String.data_append] using hdata
  · rintro ⟨lc, hlc, hlead⟩
    rcases leads_iff.mp hlead with ⟨r, hr⟩
    refine ⟨⟨lc⟩, List.mem_map.mpr ⟨lc, hlc, rfl⟩, ⟨r⟩, ?_⟩
    show (⟨lc⟩ : String) = ⟨">>>> ".data ++ r⟩
    exact congrArg String.mk hr

/-! ## Lemmas about the arrow-block parser in idle state -/

theorem abStep_no_opener (st : ABState) (hmode : st.mode = .idle)
    (line : String) (hno : strStarts (pyStrip line) "<<<< " = false) :
    abStep st line = st := by
  unfold abStep
  rw [hmode]
  simp [hno]

/-- A text none of whose (stripped) lines opens an arrow block parses to
zero Edits. -/
theorem parse_arrow_blocks_no_opener (t : String)
    (h : ∀ l ∈ pySplitlinesKeep t, strStarts (pyStrip l) "<<<< " = false) :
    parse_arrow_blocks t = [] := by
  have hfold : ∀ (lines : List String),
      (∀ l ∈ lines, strStarts (pyStrip l) "<<<< " = false) →
      ∀ st : ABState, st.mode = .idle → lines.foldl abStep st = st := by
    intro lines
    induction lines with
    | nil => intro _ st _; rfl
    | cons x xs ih =>
      intro hh st hmode
      rw [List.foldl_cons, abStep_no_opener st hmode x (hh x (List.mem_cons_self _ _))]
      exact ih (fun l hl => hh l (List.mem_cons_of_mem _ hl)) st hmode
  unfold parse_arrow_blocks
  rw [hfold _ h _ rfl]

end Dap

section FixtureChecks
open Dap

/-! Concrete evaluations of the embedding on the fixtures of the
repository's own test suite (`dap_tests.py`), checking that the model
reproduces the tool's observable behaviour. -/

example : pySplitlines "a\nb\n" = ["a", "b"] := by decide
example : pySplitlinesKeep "a\nb" = ["a\n", "b"] := by decide
example : pyStrip "  x \n" = "x" := by decide
example : rstripNL "  b\n" = "  b" := by decide
example : find_occurrences ["a", "  b", "c"] "  b" = ([1], 1) := by decide
example : find_occurrences ["a", "  b", "c"] "\n  b\n" = ([1], 1) := by decide
example : find_occurrences ["    x", "    y", "    z"] "x\ny\nz" = ([0], 3) := by decide
example : find_occurrences ["  start", "    middle", "  end"] "start\nmiddle\nend" = ([0], 3) := by decide

example :
    parse_diff_fenced "\nsrc/main.rs\n<<<<<<< SEARCH\nold\n=======\nnew\n>>>>>>> REPLACE\n" =
      some [⟨"src/main.rs", "old\n", "new\n", false⟩] := by decide

example :
    parse_source_dest_blocks "\n>>>> src/lib.rs\n<<<<\ntrue\n====\nfalse\n>>>>\n" =
      [⟨"src/lib.rs", "true\n", "false\n", false⟩] := by decide

example :
    parse_arrow_blocks "\n<<<< file1.rs\nsearch1\n====\nreplace1\n>>>>\n" =
      [⟨"file1.rs", "search1\n", "replace1\n", false⟩] := by decide

example :
    parse_delete_commands "\nmathweb/flask/oldapp.py <<<<<<< DELETE\nmathweb/init.py <<<<<<< DELETE\n" =
      [⟨"mathweb/flask/oldapp.py", "", "", true⟩, ⟨"mathweb/init.py", "", "", true⟩] := by decide

example : detectDialect "hello" = .arrowBlock := by decide
example : detectDialect "a\n>>>> x\nb" = .sourceDest := by decide
example :
    run_preflight_checks [("a.txt", "hello\n")] [⟨"missing.txt", "x", "y", false⟩] =
      (false, ["  - Patch #1 for \x27missing.txt\x27: FAILED (File not found)"]) := by decide
example :
    apply_patch [("code.py", "def hello():\n    print(1)")]
      ⟨"code.py", "def hello():\n    print(1)", "def hello():\n    print(2)", false⟩ false =
      ([("code.py", "def hello():\n    print(2)")], true) := by decide

end FixtureChecks

section Claims
open Dap

/-- **C2.** For every `source_lines` and `search_block` such that the
strict line-by-line comparison (exact content and leading whitespace,
after stripping trailing line-ending characters from source lines) finds
at least one starting index — witnessed here by a start index `i` whose
window of source lines, trailing line-endings stripped, equals the
verbatim search lines — `find_occurrences` returns exactly the strict
indices paired with the verbatim search-line count.  The equality pins
the whole output to the strict tier, so the trimmed and loose tiers are
never consulted (tier short-circuit). -/
theorem find_occurrences_strict_tier (source_lines : List String)
    (search_block : String) (i : Nat)
    (hne : pySplitlines search_block ≠ [])
    (hbound : i + (pySplitlines search_block).length ≤ source_lines.length)
    (hslice : ((source_lines.map rstripNL).drop i).take (pySplitlines search_block).length
        = pySplitlines search_block) :
    find_occurrences source_lines search_block =
      (findSublist (source_lines.map rstripNL) (pySplitlines search_block),
        (pySplitlines search_block).length) ∧
      i ∈ (find_occurrences source_lines search_block).1 := by
  have hmem : i ∈ findSublist (source_lines.map rstripNL) (pySplitlines search_block) :=
    mem_findSublist.mpr ⟨hne, by rw [List.length_map]; exact hbound, hslice⟩
  have hnil : findSublist (source_lines.map rstripNL) (pySplitlines search_block) ≠ [] :=
    fun h => by rw [h] at hmem; exact absurd hmem (List.not_mem_nil i)
  have heq : find_occurrences source_lines search_block =
      (findSublist (source_lines.map rstripNL) (pySplitlines search_block),
        (pySplitlines search_block).length) := by
    unfold find_occurrences
    rw [if_pos hnil]
  exact ⟨heq, by rw [heq]; exact hmem⟩

/-- Witness for C2 at a concrete input: the search block `"bar\nbaz"`
matches lines 1-2 of `["foo", "bar", "baz"]` strictly, and
`find_occurrences` returns exactly `([1], 2)`. -/
theorem find_occurrences_strict_tier_witness :
    find_occurrences ["foo", "bar", "baz"] "bar\nbaz" = ([1], 2) := by
  have h := find_occurrences_strict_tier ["foo", "bar", "baz"] "bar\nbaz" 1
    (by decide) (by decide) (by decide)
  rw [h.1]
  decide

/-- **C3.** When the strict tier finds nothing (`h1`) and the trimmed tier
finds nothing (`h2`), but source lines and (trimmed) search lines agree
after per-line leading/trailing whitespace stripping on the window
starting at `i`, the loose tier of `find_occurrences` finds the match:
the output is exactly the loose-tier index list — containing `i` — paired
with the trimmed search-line count. -/
theorem find_occurrences_loose_tier (source_lines : List String)
    (search_block : String) (i : Nat)
    (h1 : findSublist (source_lines.map rstripNL) (pySplitlines search_block) = [])
    (h2 : findSublist (source_lines.map rstripNL)
        (pySplitlines (stripNLBoth search_block)) = [])
    (hne : (pySplitlines (stripNLBoth search_block)).map pyStrip ≠ [])
    (hbound : i + ((pySplitlines (stripNLBoth search_block)).map pyStrip).length
        ≤ source_lines.length)
    (hslice : ((source_lines.map pyStrip).drop i).take
          ((pySplitlines (stripNLBoth search_block)).map pyStrip).length
        = (pySplitlines (stripNLBoth search_block)).map pyStrip) :
    find_occurrences source_lines search_block =
      (findSublist (source_lines.map pyStrip)
          ((pySplitlines (stripNLBoth search_block)).map pyStrip),
        (pySplitlines (stripNLBoth search_block)).length) ∧
      i ∈ (find_occurrences source_lines search_block).1 := by
  have hmem : i ∈ findSublist (source_lines.map pyStrip)
      ((pySplitlines (stripNLBoth search_block)).map pyStrip) := by
    refine mem_findSublist.mpr ⟨hne, ?_, hslice⟩
    rw [List.length_map, List.length_map]
    rw [List.length_map] at hbound
    exact hbound
  have heq : find_occurrences source_lines search_block =
      (findSublist (source_lines.map pyStrip)
          ((pySplitlines (stripNLBoth search_block)).map pyStrip),
        (pySplitlines (stripNLBoth search_block)).length) := by
    unfold find_occurrences
    dsimp only
    rw [if_neg (fun hh => hh h1)]
    have hmsT : (if stripNLBoth search_block ≠ search_block ∧
        pySplitlines (stripNLBoth search_block) ≠ [] then
          findSublist (source_lines.map rstripNL)
            (pySplitlines (stripNLBoth search_block))
        else []) = [] := by
      split
      · exact h2
      · rfl
    rw [hmsT]
    rw [if_neg (fun hh : ¬([] : List Nat) = [] => hh rfl)]
    rw [if_neg hne]
  exact ⟨heq, by rw [heq]; exact hmem⟩

/-- Witness for C3 at the concrete input from the spec: source lines
`["    x", "    y", "    z"]` differ from search block `"x\ny\nz"` only by
per-line leading whitespace; strict and trimmed tiers fail and the result
is start index 0 with match length 3. -/
theorem find_occurrences_loose_tier_witness :
    find_occurrences ["    x", "    y", "    z"] "x\ny\nz" = ([0], 3) := by
  have h := find_occurrences_loose_tier ["    x", "    y", "    z"] "x\ny\nz" 0
    (by decide) (by decide) (by decide) (by decide) (by decide)
  rw [h.1]
  decide

/-- **C10.** Every result of `find_occurrences` is within bounds: the
returned index list is strictly increasing, and each start index `i`
satisfies `i + match_len ≤ source_lines.length`, so the line-range splice
`source_lines[start : start + match_len]` performed by `apply_patch`
always addresses lines that exist in the file. -/
theorem find_occurrences_bounds (source_lines : List String) (search_block : String) :
    (find_occurrences source_lines search_block).1.Pairwise (· < ·) ∧
      ∀ i ∈ (find_occurrences source_lines search_block).1,
        i + (find_occurrences source_lines search_block).2 ≤ source_lines.length := by
  rcases find_occurrences_shape source_lines search_block with h | ⟨full, sub, hlen, h⟩
  · rw [h]
    exact ⟨List.Pairwise.nil, by intro i hi; exact absurd hi (List.not_mem_nil i)⟩
  · rw [h]
    refine ⟨findSublist_pairwise _ _, fun i hi => ?_⟩
    have := (mem_findSublist.mp hi).2.1
    omega

/-- **C1.** For every batch and every filesystem state, if any single
Edit fails its preflight check then `run_preflight_checks` returns
`all_passed = false` and the program aborts before `apply_patch` is ever
invoked: `run_batch` returns the `preflightFailed` outcome with the
filesystem component exactly the input filesystem, so no file is created,
modified, or deleted.  (`run_preflight_checks` itself performs only
reads — by construction it consumes `fs` and returns no filesystem.) -/
theorem preflight_rejection_gate (fs : FS) (patches : List Edit) (dry : Bool)
    (p : Edit) (hmem : p ∈ patches) (hfail : preflightIssue fs p ≠ none) :
    (run_preflight_checks fs patches).1 = false ∧
      run_batch fs patches dry =
        (fs, Outcome.preflightFailed (run_preflight_checks fs patches).2) := by
  have hne := preflightErrors_ne_nil fs p patches hmem hfail 0
  have hrp := run_preflight_checks_failed hne
  have hpne : patches ≠ [] := by
    intro h
    rw [h] at hmem
    exact absurd hmem (List.not_mem_nil p)
  exact ⟨by rw [hrp], run_batch_preflight_failed hpne (by rw [hrp])⟩

/-- Witness for C1 at the spec's example: a two-edit batch whose first
edit is valid and whose second targets a nonexistent file fails preflight
and leaves the filesystem untouched. -/
theorem preflight_rejection_gate_witness :
    (run_preflight_checks [("a.txt", "hello\n")]
        [⟨"a.txt", "hello\n", "hi\n", false⟩, ⟨"missing.txt", "x", "y", false⟩]).1 =
      false ∧
    run_batch [("a.txt", "hello\n")]
        [⟨"a.txt", "hello\n", "hi\n", false⟩, ⟨"missing.txt", "x", "y", false⟩] false =
      ([("a.txt", "hello\n")], Outcome.preflightFailed
        (run_preflight_checks [("a.txt", "hello\n")]
          [⟨"a.txt", "hello\n", "hi\n", false⟩, ⟨"missing.txt", "x", "y", false⟩]).2) :=
  preflight_rejection_gate [("a.txt", "hello\n")]
    [⟨"a.txt", "hello\n", "hi\n", false⟩, ⟨"missing.txt", "x", "y", false⟩] false
    ⟨"missing.txt", "x", "y", false⟩ (by decide) (by decide)

/-- **C6.** For an Edit whose search block is empty or whitespace-only and
whose `delete_file` is false: (1) preflight passes iff the target file does
not exist or its entire content is empty/whitespace-only; (2) when the
target exists with non-whitespace content, preflight fails with a
diagnostic containing "Search block is empty, but target file is not
empty"; and (3) any batch containing such an Edit fails preflight, so the
apply phase is never reached and the filesystem is unchanged. -/
theorem empty_search_preflight (fs : FS) (i : Nat) (e : Edit)
    (hd : e.delete_file = false) (hs : pyStrip e.search_block = "") :
    (preflightError fs i e = none ↔
      fsRead fs e.file_path = none ∨
        ∃ c, fsRead fs e.file_path = some c ∧ pyStrip c = "") ∧
    ∀ c, fsRead fs e.file_path = some c → pyStrip c ≠ "" →
      (∃ msg, preflightError fs i e = some msg ∧
        containsSubstr msg "Search block is empty, but target file is not empty" =
          true) ∧
      ∀ (patches : List Edit) (dry : Bool), e ∈ patches →
        (run_preflight_checks fs patches).1 = false ∧
        run_batch fs patches dry =
          (fs, Outcome.preflightFailed (run_preflight_checks fs patches).2) := by
  have hIssue : preflightIssue fs e =
      (match fsRead fs e.file_path with
       | none => none
       | some content =>
         if pyStrip content = "" then none
         else some " FAILED (Search block is empty, but target file is not empty)") := by
    unfold preflightIssue
    rw [hd]
    simp [hs]
  constructor
  · rw [preflightError_eq_none_iff, hIssue]
    cases hr : fsRead fs e.file_path with
    | none => simp
    | some c =>
      by_cases hc : pyStrip c = "" <;> simp [hc]
  · intro c hc hcc
    have hIss : preflightIssue fs e =
        some " FAILED (Search block is empty, but target file is not empty)" := by
      rw [hIssue, hc]
      simp [hcc]
    constructor
    · refine ⟨checkPrefix i e ++
        " FAILED (Search block is empty, but target file is not empty)", ?_, ?_⟩
      · unfold preflightError
        rw [hIss]
        rfl
      · exact containsSubstr_append_left (checkPrefix i e) (by decide)
    · intro patches dry hmem
      have hfail : preflightIssue fs e ≠ none := by rw [hIss]; exact Option.some_ne_none _
      have hne := preflightErrors_ne_nil fs e patches hmem hfail 0
      have hrp := run_preflight_checks_failed hne
      have hpne : patches ≠ [] := by
        intro h
        rw [h] at hmem
        exact absurd hmem (List.not_mem_nil e)
      exact ⟨by rw [hrp], run_batch_preflight_failed hpne (by rw [hrp])⟩

/-- Witness for C6 at a concrete input: with `full.txt` holding
`"content"`, an empty-search edit fails preflight with the expected
message and the one-edit batch leaves the filesystem unchanged. -/
theorem empty_search_preflight_witness :
    (preflightError [("full.txt", "content")] 0 ⟨"full.txt", "", "new", false⟩ ≠
      none) ∧
    (run_preflight_checks [("full.txt", "content")]
        [⟨"full.txt", "", "new", false⟩]).1 = false ∧
    run_batch [("full.txt", "content")] [⟨"full.txt", "", "new", false⟩] false =
      ([("full.txt", "content")], Outcome.preflightFailed
        (run_preflight_checks [("full.txt", "content")]
          [⟨"full.txt", "", "new", false⟩]).2) := by
  have h := empty_search_preflight [("full.txt", "content")] 0
    ⟨"full.txt", "", "new", false⟩ rfl (by decide)
  have h2 := h.2 "content" (by decide) (by decide)
  obtain ⟨⟨msg, hmsg, _⟩, hbatch⟩ := h2
  have h3 := hbatch [⟨"full.txt", "", "new", false⟩] false (by decide)
  exact ⟨by rw [hmsg]; exact Option.some_ne_none _, h3.1, h3.2⟩

/-- **C7.** Round-trip: for every existing readable file and every
replace Edit (`delete_file` false, non-blank search block) whose
`search_block` equals the file's exact current full content,
`apply_patch` with `dry_run = false` succeeds and the file's resulting
content equals `replace_block` exactly, with no residual lines from the
old content. -/
theorem apply_replace_full_content (fs : FS) (e : Edit) (content : String)
    (hd : e.delete_file = false)
    (hread : fsRead fs e.file_path = some content)
    (hsearch : e.search_block = content)
    (hnb : pyStrip content ≠ "") :
    apply_patch fs e false = (fsWrite fs e.file_path e.replace_block, true) ∧
      fsRead (apply_patch fs e false).1 e.file_path = some e.replace_block := by
  have hcne : content ≠ "" := by
    intro hc
    rw [hc] at hnb
    exact hnb rfl
  have hlne : pySplitlines content ≠ [] := pySplitlines_ne_nil hcne
  have hfo : find_occurrences (pySplitlinesKeep content) content =
      ([0], (pySplitlines content).length) := by
    unfold find_occurrences
    dsimp only
    rw [map_rstripNL_splitKeep, findSublist_self hlne]
    rw [if_pos (by simp)]
  have hsne : pyStrip e.search_block ≠ "" := by rw [hsearch]; exact hnb
  have happly : apply_patch fs e false =
      (fsWrite fs e.file_path e.replace_block, true) := by
    unfold apply_patch
    rw [hd]
    simp only [Bool.false_eq_true, if_false]
    rw [if_neg hsne, hread]
    dsimp only
    rw [hsearch, hfo]
    dsimp only
    rw [List.take_zero, List.nil_append]
    have hdrop : (pySplitlinesKeep content).drop
        (0 + (pySplitlines content).length) = [] := by
      apply List.drop_eq_nil_of_le
      rw [splitKeep_length]
      omega
    rw [hdrop, List.append_nil]
    rw [strJoin_splitKeep]
  refine ⟨happly, ?_⟩
  rw [happly]
  simp [fsRead, fsWrite]

/-- Witness for C7 at a concrete input: replacing the exact full content
`"a\nb\n"` of `f.txt` with `"c\nd"` leaves the file holding exactly
`"c\nd"`. -/
theorem apply_replace_full_content_witness :
    apply_patch [("f.txt", "a\nb\n")] ⟨"f.txt", "a\nb\n", "c\nd", false⟩ false =
      ([("f.txt", "c\nd")], true) ∧
    fsRead (apply_patch [("f.txt", "a\nb\n")]
        ⟨"f.txt", "a\nb\n", "c\nd", false⟩ false).1 "f.txt" = some "c\nd" := by
  have h := apply_replace_full_content [("f.txt", "a\nb\n")]
    ⟨"f.txt", "a\nb\n", "c\nd", false⟩ "a\nb\n" rfl (by decide) rfl (by decide)
  refine ⟨?_, h.2⟩
  rw [h.1]
  decide

/-- **C8.** The dialect detector selects exactly one parser by first
match in the fixed order (`detectDialect` returns one `Dialect`, and
`selectAndParse` runs only that dialect's parser): text containing the
literal `<<<<<<< SEARCH` selects the fenced dialect; otherwise text
containing a line matching `<path> <<<<<<< DELETE` selects the
delete-command dialect; otherwise a line beginning with `>>>> ` (a line
beginning with `>>>>>>> ` never has that form, its fifth character being
`>`) selects the source/destination dialect; otherwise the arrow-block
dialect is used.  Unrecognized text — arrow-block dialect with no
block-opener line — yields zero Edits and the "no valid patch blocks"
outcome rather than an error. -/
theorem dialect_detection_order (t : String) (fs : FS) (dry : Bool) :
    (containsSubstr t "<<<<<<< SEARCH" = true →
      detectDialect t = Dialect.searchReplace) ∧
    (containsSubstr t "<<<<<<< SEARCH" = false → specHasDeleteLine t →
      detectDialect t = Dialect.deleteCommands) ∧
    (containsSubstr t "<<<<<<< SEARCH" = false → ¬specHasDeleteLine t →
      specHasCaretLine t → detectDialect t = Dialect.sourceDest) ∧
    (containsSubstr t "<<<<<<< SEARCH" = false → ¬specHasDeleteLine t →
      ¬specHasCaretLine t → detectDialect t = Dialect.arrowBlock) ∧
    (detectDialect t = Dialect.arrowBlock →
      (∀ l ∈ pySplitlinesKeep t, strStarts (pyStrip l) "<<<< " = false) →
      main_run fs t dry = some (fs, Outcome.noPatches)) := by
  refine ⟨?_, ?_, ?_, ?_, ?_⟩
  · intro h
    unfold detectDialect
    rw [if_pos h]
  · intro hS hD
    unfold detectDialect
    rw [if_neg (by rw [hS]; exact Bool.false_ne_true)]
    rw [if_pos ((specHasDeleteLine_iff t).mp hD)]
  · intro hS hD hC
    unfold detectDialect
    rw [if_neg (by rw [hS]; exact Bool.false_ne_true)]
    rw [if_neg (fun hh => hD ((specHasDeleteLine_iff t).mpr hh))]
    rw [if_pos ((specHasCaretLine_iff t).mp hC)]
  · intro hS hD hC
    unfold detectDialect
    rw [if_neg (by rw [hS]; exact Bool.false_ne_true)]
    rw [if_neg (fun hh => hD ((specHasDeleteLine_iff t).mpr hh))]
    rw [if_neg (fun hh => hC ((specHasCaretLine_iff t).mpr hh))]
  · intro hdet hno
    unfold main_run selectAndParse
    rw [hdet]
    simp only [Option.map_some]
    rw [parse_arrow_blocks_no_opener t hno]
    simp [run_batch]

/-- Witness for C8 at concrete inputs: a delete-command line selects the
delete dialect, and marker-free text runs the arrow parser, finds zero
Edits, and reports "no valid patch blocks" with the filesystem unchanged. -/
theorem dialect_detection_order_witness :
    detectDialect "a.txt <<<<<<< DELETE\n" = Dialect.deleteCommands ∧
    main_run [] "just words\n" false = some (([] : FS), Outcome.noPatches) := by
  constructor
  · exact (dialect_detection_order "a.txt <<<<<<< DELETE\n" [] false).2.1 (by decide)
      ⟨"a.txt <<<<<<< DELETE", by decide, "a.txt", "", by decide⟩
  · exact (dialect_detection_order "just words\n" [] false).2.2.2.2 (by decide)
      (by decide)

/-- **C9.** `apply_patch` with `dry_run = true` never mutates the
filesystem — for every Edit and every filesystem the returned filesystem
is the input one — and for a replace Edit (`delete_file` false, non-blank
search block) it still performs the apply-phase read and match check: it
reports success iff the target file exists and the block matcher finds
exactly one match.  (Parent-directory creation, which only the non-dry
write performs, is invisible in the flat path-map filesystem model.) -/
theorem apply_patch_dry_run (e : Edit) (fs : FS) :
    (apply_patch fs e true).1 = fs ∧
      (e.delete_file = false → pyStrip e.search_block ≠ "" →
        ((apply_patch fs e true).2 = true ↔
          ∃ c, fsRead fs e.file_path = some c ∧
            (find_occurrences (pySplitlinesKeep c) e.search_block).1.length = 1)) := by
  constructor
  · unfold apply_patch
    by_cases hd : e.delete_file = true
    · rw [if_pos hd, if_pos rfl]
    · rw [if_neg hd]
      by_cases hs : pyStrip e.search_block = ""
      · rw [if_pos hs, if_pos rfl]
      · rw [if_neg hs]
        cases hr : fsRead fs e.file_path with
        | none => rfl
        | some c =>
          dsimp only
          rcases hfo : (find_occurrences (pySplitlinesKeep c) e.search_block).1 with
            _ | ⟨a, _ | ⟨b, t⟩⟩ <;> simp [hfo]
  · intro hd hs
    unfold apply_patch
    rw [hd]
    simp only [Bool.false_eq_true, if_false]
    rw [if_neg hs]
    cases hr : fsRead fs e.file_path with
    | none => simp
    | some c =>
      dsimp only
      rcases hfo : (find_occurrences (pySplitlinesKeep c) e.search_block).1 with
        _ | ⟨a, _ | ⟨b, t⟩⟩ <;> simp [hfo]

/-- Witness for C9 at a concrete input: a dry-run replace edit against a
matching file reports success and leaves the filesystem unchanged. -/
theorem apply_patch_dry_run_witness :
    (apply_patch [("f.txt", "a\nb\n")] ⟨"f.txt", "a\n", "c\n", false⟩ true).1 =
      [("f.txt", "a\nb\n")] ∧
    (apply_patch [("f.txt", "a\nb\n")] ⟨"f.txt", "a\n", "c\n", false⟩ true).2 = true := by
  have h := apply_patch_dry_run ⟨"f.txt", "a\n", "c\n", false⟩ [("f.txt", "a\nb\n")]
  exact ⟨h.1, (h.2 rfl (by decide)).mpr ⟨"a\nb\n", by decide, by decide⟩⟩

/-- **C4** (counter-evaluation).  The claim says a parser that cannot
determine a file path discards the candidate block without raising an
error.  The SEARCH/REPLACE fenced parser does not: on a block with no
preceding path line, `file_path` is still Python `None` when the block
completes, the emit executes `None.strip()`, and the parser raises an
uncaught `AttributeError` — modelled as the `none` result.  (The dead
`elif file_path: pass / else: pass` branches at dap.py lines 35-38 show
the discard was intended, so the claim matches the intent and the code is
the slip.) -/
theorem parse_diff_fenced_pathless_raises :
    parse_diff_fenced "<<<<<<< SEARCH\nold\n=======\nnew\n>>>>>>> REPLACE\n" =
      none := by decide

/-- **C5** (counter-evaluation).  The claim (and the repository's own test
`test_parse_diff_fenced_with_code_fences`) says a code-fence opener line
between the path and `<<<<<<< SEARCH` is skipped, the path being taken
from the line before it.  The code has no such rule: on the test's own
fixture it takes the fence line itself as the file path, yielding
`file_path = "```rust"` instead of `"repx-tui/src/app.rs"`. -/
theorem parse_diff_fenced_fence_taken_as_path :
    parse_diff_fenced
        "\nrepx-tui/src/app.rs\n```rust\n<<<<<<< SEARCH\nold_code\n=======\nnew_code\n>>>>>>> REPLACE\n" =
      some [⟨"```rust", "old_code\n", "new_code\n", false⟩] := by decide

/-- Witness for C10 at a concrete input (an ambiguous two-match search):
both returned indices are in bounds and strictly increasing. -/
theorem find_occurrences_bounds_witness :
    (find_occurrences ["a", "b", "a", "b"] "a\nb").1.Pairwise (· < ·) ∧
      ∀ i ∈ (find_occurrences ["a", "b", "a", "b"] "a\nb").1,
        i + (find_occurrences ["a", "b", "a", "b"] "a\nb").2 ≤
          (["a", "b", "a", "b"] : List String).length :=
  find_occurrences_bounds ["a", "b", "a", "b"] "a\nb"

end Claims
